import Mathlib

/-!
Verification of the LoRa-to-MQTT gateway core (RYLR998 radio driver and the
decode → publish → acknowledge pipeline).

Arduino `String` values are modelled as `List Char` (one `Char` per byte; all
payloads in scope are ASCII).  The C `int` indices returned by `indexOf` /
`lastIndexOf` are modelled as `Int` (−1 for "not found"), and every implicit
C conversion from `int` to `unsigned int` at a `String` member boundary is
made explicit through `toUInt32`, which reduces modulo 2^32 exactly as the
hardware does.  Arduino strings always satisfy `length < 2^32`, so theorems
about arbitrary modelled strings carry that bound as a hypothesis where the
cast matters.
-/

abbrev Str := List Char

/-- The C cast `(unsigned int)x` applied to a (possibly negative) `int`
index, as happens implicitly when an `int` is passed to
`String::substring`, `String::indexOf` or `String::lastIndexOf`. -/
def toUInt32 (x : Int) : Nat := (x % (2 ^ 32 : Int)).toNat

/-- `String::indexOf(ch, fromIndex)`: index of the first occurrence of `ch`
at or after `fromIndex`, or −1 when there is none (including when
`fromIndex ≥ length`). -/
def indexOfFrom (s : Str) (ch : Char) (fromIndex : Nat) : Int :=
  match (s.drop fromIndex).findIdx? (fun c => c = ch) with
  | none => -1
  | some i => ((fromIndex + i : Nat) : Int)

/-- `String::lastIndexOf(ch, fromIndex)`: index of the last occurrence of
`ch` at or before `fromIndex`, or −1; returns −1 outright when
`fromIndex ≥ length` (which is how a negative `int` argument behaves after
the unsigned cast). -/
def lastIndexOfFrom (s : Str) (ch : Char) (fromIndex : Nat) : Int :=
  if fromIndex ≥ s.length then -1
  else
    match (s.take (fromIndex + 1)).reverse.findIdx? (fun c => c = ch) with
    | none => -1
    | some i => ((fromIndex - i : Nat) : Int)

/-- `String::lastIndexOf(ch)`, which the Arduino core implements as
`lastIndexOf(ch, len - 1)` with unsigned wraparound when `len = 0`. -/
def lastIndexOf (s : Str) (ch : Char) : Int :=
  lastIndexOfFrom s ch (toUInt32 ((s.length : Int) - 1))

/-- `String::substring(left, right)` on the unsigned values obtained after
the C cast: swap if `left > right`, empty if `left ≥ length`, clamp `right`
to the length, then return the characters in `[left, right)`. -/
def substrU (s : Str) (left right : Nat) : Str :=
  let l := if left > right then right else left
  let r := if left > right then left else right
  if l ≥ s.length then []
  else (s.take (min r s.length)).drop l

/-- The five reference-parameter outputs of `RYLR998::_parseRcvString`. -/
structure RcvFields where
  address : Str
  length : Str
  jsonData : Str
  rssi : Str
  snr : Str
deriving DecidableEq

/-- `RYLR998::_parseRcvString`: split the text after the `+RCV=` marker into
address, length, payload, rssi and snr, anchoring the first two fields at
the first two commas from the left and the last two fields at the last two
commas from the right.  Every `int`→`unsigned` conversion of the C source is
written out via `toUInt32`. -/
def parseRcvString (input : Str) : RcvFields :=
  -- int start = 0; int end = input.indexOf(',', start);
  let end1 := indexOfFrom input ',' 0
  -- address = input.substring(start, end);
  let address := substrU input 0 (toUInt32 end1)
  -- start = end + 1; end = input.indexOf(',', start);
  let start2 := end1 + 1
  let end2 := indexOfFrom input ',' (toUInt32 start2)
  -- length = input.substring(start, end);
  let length := substrU input (toUInt32 start2) (toUInt32 end2)
  -- start = end + 1; end = input.lastIndexOf(',', input.lastIndexOf(',') - 1);
  let start3 := end2 + 1
  let end3 := lastIndexOfFrom input ',' (toUInt32 (lastIndexOf input ',' - 1))
  -- jsonData = input.substring(start, end);
  let jsonData := substrU input (toUInt32 start3) (toUInt32 end3)
  -- start = end + 1; end = input.lastIndexOf(',');
  let start4 := end3 + 1
  let end4 := lastIndexOf input ','
  -- rssi = input.substring(start, end);
  let rssi := substrU input (toUInt32 start4) (toUInt32 end4)
  -- snr = input.substring(end + 1);  (one-argument substring runs to len)
  let snr := substrU input (toUInt32 (end4 + 1)) input.length
  ⟨address, length, jsonData, rssi, snr⟩

example :
    parseRcvString (("A,L,5,-42,11").data) =
      ⟨("A").data, ("L").data, ("5").data, ("-42").data, ("11").data⟩ := by
  decide

example :
    (parseRcvString (("X").data)).address = ("X").data := by
  decide

example :
    parseRcvString (("a,b,c,d").data) =
      ⟨("a").data, ("b").data, (",").data, ("c").data, ("d").data⟩ := by
  decide

lemma findIdx?_first_eq (u t : Str) (c : Char) (hu : c ∉ u) :
    (u ++ c :: t).findIdx? (fun x => x = c) = some u.length := by
  rw [List.findIdx?_append]
  have h1 : u.findIdx? (fun x => x = c) = none := by
    rw [List.findIdx?_eq_none_iff]
    intro x hx
    simp only [decide_eq_false_iff_not]
    rintro rfl
    exact hu hx
  rw [h1]
  simp [List.findIdx?_cons]

lemma indexOfFrom_spec (s u t : Str) (c : Char) (f : Nat)
    (hdrop : s.drop f = u ++ c :: t) (hu : c ∉ u) :
    indexOfFrom s c f = ((f + u.length : Nat) : Int) := by
  unfold indexOfFrom
  rw [hdrop, findIdx?_first_eq u t c hu]

lemma lastIndexOfFrom_spec (s t u : Str) (c : Char) (f : Nat)
    (hf : f < s.length) (htake : s.take (f + 1) = t ++ c :: u) (hu : c ∉ u) :
    lastIndexOfFrom s c f = (t.length : Int) := by
  have hlen : t.length + (u.length + 1) = f + 1 := by
    have h := congrArg List.length htake
    simp only [List.length_take, List.length_append, List.length_cons] at h
    omega
  unfold lastIndexOfFrom
  rw [if_neg (by omega)]
  have hrev : (s.take (f + 1)).reverse = u.reverse ++ c :: t.reverse := by
    rw [htake]
    simp
  rw [hrev, findIdx?_first_eq _ _ _ (by simpa using hu)]
  simp only [List.length_reverse]
  omega

lemma toUInt32_coe (k : Nat) (hk : k < 2 ^ 32) : toUInt32 (k : Int) = k := by
  unfold toUInt32
  omega

lemma substrU_append (x y z : Str) :
    substrU (x ++ y ++ z) x.length (x.length + y.length) = y := by
  unfold substrU
  have hns : ¬ (x.length > x.length + y.length) := by omega
  simp only [if_neg hns]
  by_cases h : x.length ≥ (x ++ y ++ z).length
  · simp only [List.length_append] at h
    have hy : y = [] := List.eq_nil_of_length_eq_zero (by omega)
    simp [hy, List.length_append]
  · rw [if_neg h]
    have hmin : min (x.length + y.length) (x ++ y ++ z).length = x.length + y.length := by
      simp only [List.length_append]
      omega
    rw [hmin]
    have ht : (x ++ y ++ z).take (x.length + y.length) = x ++ y := by
      have h2 := List.take_left (x ++ y) z
      simpa [List.length_append] using h2
    rw [ht]
    exact List.drop_left x y

lemma parseRcv_core (a l m r n : Str)
    (ha : ',' ∉ a) (hl : ',' ∉ l) (hr : ',' ∉ r) (hn : ',' ∉ n)
    (hlen : (a ++ ',' :: (l ++ ',' :: (m ++ ',' :: (r ++ ',' :: n)))).length < 2 ^ 32) :
    parseRcvString (a ++ ',' :: (l ++ ',' :: (m ++ ',' :: (r ++ ',' :: n)))) =
      ⟨a, l, m, r, n⟩ := by
  set s : Str := a ++ ',' :: (l ++ ',' :: (m ++ ',' :: (r ++ ',' :: n))) with hs
  have hsl : s.length = a.length + l.length + m.length + r.length + n.length + 4 := by
    rw [hs]
    simp only [List.length_append, List.length_cons, List.length_nil]
    omega
  have hB : a.length + l.length + m.length + r.length + n.length + 4 < 2 ^ 32 := by
    rw [← hsl]
    exact hlen
  have hd0 : s.drop 0 = a ++ ',' :: (l ++ ',' :: (m ++ ',' :: (r ++ ',' :: n))) := by
    rw [hs, List.drop_zero]
  have h1 : indexOfFrom s ',' 0 = ((a.length : Nat) : Int) := by
    have h := indexOfFrom_spec s a _ ',' 0 hd0 ha
    simpa using h
  have hd2 : s.drop (a.length + 1) = l ++ ',' :: (m ++ ',' :: (r ++ ',' :: n)) := by
    rw [hs]
    have h := List.drop_left (a ++ [',']) (l ++ ',' :: (m ++ ',' :: (r ++ ',' :: n)))
    simp only [List.length_append, List.length_cons, List.length_nil, List.append_assoc,
      List.singleton_append] at h
    exact h
  have h2 : indexOfFrom s ',' (a.length + 1) = ((a.length + 1 + l.length : Nat) : Int) :=
    indexOfFrom_spec s l _ ',' (a.length + 1) hd2 hl
  have htL : s.take (s.length - 1 + 1) = (a ++ ',' :: (l ++ ',' :: (m ++ ',' :: r))) ++ ',' :: n := by
    have he : s.length - 1 + 1 = s.length := by omega
    rw [he, List.take_length, hs]
    simp
  have h4 : lastIndexOf s ',' =
      ((a.length + l.length + m.length + r.length + 3 : Nat) : Int) := by
    unfold lastIndexOf
    have ht32 : toUInt32 ((s.length : Int) - 1) = s.length - 1 := by
      unfold toUInt32
      omega
    rw [ht32]
    have h := lastIndexOfFrom_spec s (a ++ ',' :: (l ++ ',' :: (m ++ ',' :: r))) n ','
      (s.length - 1) (by omega) htL hn
    rw [h]
    have hlt : (a ++ ',' :: (l ++ ',' :: (m ++ ',' :: r))).length =
        a.length + l.length + m.length + r.length + 3 := by
      simp only [List.length_append, List.length_cons, List.length_nil]
      omega
    rw [hlt]
  have htake5 : s.take (a.length + l.length + m.length + r.length + 2 + 1) =
      (a ++ ',' :: (l ++ ',' :: m)) ++ ',' :: r := by
    have h27 : a.length + l.length + m.length + r.length + 2 + 1 =
        ((a ++ ',' :: (l ++ ',' :: m)) ++ ',' :: r).length := by
      simp only [List.length_append, List.length_cons, List.length_nil]
      omega
    rw [h27]
    have hsY : s = ((a ++ ',' :: (l ++ ',' :: m)) ++ ',' :: r) ++ ',' :: n := by
      rw [hs]
      simp
    rw [hsY]
    rw [List.take_left]
  have h5 : lastIndexOfFrom s ',' (a.length + l.length + m.length + r.length + 2) =
      ((a.length + l.length + m.length + 2 : Nat) : Int) := by
    have h := lastIndexOfFrom_spec s (a ++ ',' :: (l ++ ',' :: m)) r ','
      (a.length + l.length + m.length + r.length + 2) (by omega) htake5 hr
    rw [h]
    have hlt : (a ++ ',' :: (l ++ ',' :: m)).length = a.length + l.length + m.length + 2 := by
      simp only [List.length_append, List.length_cons, List.length_nil]
      omega
    rw [hlt]
  have hA : substrU s 0 a.length = a := by
    have h0 := substrU_append [] a (',' :: (l ++ ',' :: (m ++ ',' :: (r ++ ',' :: n))))
    simpa [← hs] using h0
  have hL2 : substrU s (a.length + 1) (a.length + 1 + l.length) = l := by
    have h0 := substrU_append (a ++ [',']) l (',' :: (m ++ ',' :: (r ++ ',' :: n)))
    simpa [← hs, List.length_append, List.append_assoc] using h0
  have hM : substrU s (a.length + l.length + 2) (a.length + l.length + m.length + 2) = m := by
    have h0 := substrU_append (a ++ ',' :: (l ++ [','])) m (',' :: (r ++ ',' :: n))
    have e1 : (a ++ ',' :: (l ++ [','])).length = a.length + l.length + 2 := by
      simp only [List.length_append, List.length_cons, List.length_nil]
      omega
    rw [e1] at h0
    have e2 : a.length + l.length + 2 + m.length = a.length + l.length + m.length + 2 := by
      omega
    rw [e2] at h0
    have e3 : a ++ ',' :: (l ++ [',']) ++ m ++ ',' :: (r ++ ',' :: n) = s := by
      rw [hs]
      simp
    rwa [e3] at h0
  have hR : substrU s (a.length + l.length + m.length + 3)
      (a.length + l.length + m.length + r.length + 3) = r := by
    have h0 := substrU_append (a ++ ',' :: (l ++ ',' :: (m ++ [',']))) r (',' :: n)
    have e1 : (a ++ ',' :: (l ++ ',' :: (m ++ [',']))).length =
        a.length + l.length + m.length + 3 := by
      simp only [List.length_append, List.length_cons, List.length_nil]
      omega
    rw [e1] at h0
    have e2 : a.length + l.length + m.length + 3 + r.length =
        a.length + l.length + m.length + r.length + 3 := by
      omega
    rw [e2] at h0
    have e3 : a ++ ',' :: (l ++ ',' :: (m ++ [','])) ++ r ++ ',' :: n = s := by
      rw [hs]
      simp
    rwa [e3] at h0
  have hN : substrU s (a.length + l.length + m.length + r.length + 4) s.length = n := by
    have h0 := substrU_append (a ++ ',' :: (l ++ ',' :: (m ++ ',' :: (r ++ [','])))) n []
    have e1 : (a ++ ',' :: (l ++ ',' :: (m ++ ',' :: (r ++ [','])))).length =
        a.length + l.length + m.length + r.length + 4 := by
      simp only [List.length_append, List.length_cons, List.length_nil]
      omega
    rw [e1] at h0
    have e2 : a.length + l.length + m.length + r.length + 4 + n.length = s.length := by
      omega
    rw [e2] at h0
    have e3 : a ++ ',' :: (l ++ ',' :: (m ++ ',' :: (r ++ [',']))) ++ n ++ [] = s := by
      rw [hs]
      simp
    rwa [e3] at h0
  have c1 : ((a.length : Nat) : Int) + 1 = ((a.length + 1 : Nat) : Int) := by
    push_cast
    ring
  have c2 : ((a.length + 1 + l.length : Nat) : Int) + 1 =
      ((a.length + l.length + 2 : Nat) : Int) := by
    push_cast
    ring
  have c3 : ((a.length + l.length + m.length + r.length + 3 : Nat) : Int) - 1 =
      ((a.length + l.length + m.length + r.length + 2 : Nat) : Int) := by
    push_cast
    ring
  have c4 : ((a.length + l.length + m.length + 2 : Nat) : Int) + 1 =
      ((a.length + l.length + m.length + 3 : Nat) : Int) := by
    push_cast
    ring
  have c5 : ((a.length + l.length + m.length + r.length + 3 : Nat) : Int) + 1 =
      ((a.length + l.length + m.length + r.length + 4 : Nat) : Int) := by
    push_cast
    ring
  simp only [parseRcvString]
  rw [h1, c1, toUInt32_coe _ (by omega), toUInt32_coe _ (by omega), h2,
    toUInt32_coe _ (by omega), c2, toUInt32_coe _ (by omega), h4, c3,
    toUInt32_coe _ (by omega), h5, toUInt32_coe _ (by omega), c4,
    toUInt32_coe _ (by omega), toUInt32_coe _ (by omega), c5,
    toUInt32_coe _ (by omega), hA, hL2, hM, hR, hN]

lemma exists_first_split (c : Char) (s : Str) (h : c ∈ s) :
    ∃ a t, s = a ++ c :: t ∧ c ∉ a := by
  induction s with
  | nil => exact absurd h (List.not_mem_nil c)
  | cons x xs ih =>
    by_cases hx : x = c
    · exact ⟨[], xs, by rw [hx, List.nil_append], List.not_mem_nil c⟩
    · rcases List.mem_cons.mp h with h1 | h2
      · exact absurd h1.symm hx
      · obtain ⟨a, t, ht, hna⟩ := ih h2
        refine ⟨x :: a, t, by rw [ht]; rfl, ?_⟩
        intro hc
        rcases List.mem_cons.mp hc with h3 | h4
        · exact hx h3.symm
        · exact hna h4

lemma exists_last_split (c : Char) (s : Str) (h : c ∈ s) :
    ∃ t u, s = t ++ c :: u ∧ c ∉ u := by
  obtain ⟨a, t, ht, hna⟩ := exists_first_split c s.reverse (by simpa using h)
  refine ⟨t.reverse, a.reverse, ?_, by simpa using hna⟩
  have h2 := congrArg List.reverse ht
  simp only [List.reverse_reverse, List.reverse_append, List.reverse_cons,
    List.append_assoc, List.singleton_append] at h2
  exact h2

lemma count_first_split (c : Char) (a t : Str) (hna : c ∉ a) :
    (a ++ c :: t).count c = t.count c + 1 := by
  rw [List.count_append, List.count_eq_zero.mpr hna, List.count_cons]
  simp

lemma count_last_split (c : Char) (t u : Str) (hnu : c ∉ u) :
    (t ++ c :: u).count c = t.count c + 1 := by
  rw [List.count_append, List.count_cons, List.count_eq_zero.mpr hnu]
  simp

lemma exists_four_split (s : Str) (h : 4 ≤ s.count ',') :
    ∃ a l m r n, s = a ++ ',' :: (l ++ ',' :: (m ++ ',' :: (r ++ ',' :: n)))
      ∧ ',' ∉ a ∧ ',' ∉ l ∧ ',' ∉ r ∧ ',' ∉ n := by
  obtain ⟨a, t₁, rfl, hna⟩ :=
    exists_first_split ',' s (List.count_pos_iff.mp (by omega))
  have h2 : 3 ≤ t₁.count ',' := by
    have hc := count_first_split ',' a t₁ hna
    omega
  obtain ⟨l, t₂, rfl, hnl⟩ :=
    exists_first_split ',' t₁ (List.count_pos_iff.mp (by omega))
  have h3 : 2 ≤ t₂.count ',' := by
    have hc := count_first_split ',' l t₂ hnl
    omega
  obtain ⟨t₃, n, rfl, hnn⟩ :=
    exists_last_split ',' t₂ (List.count_pos_iff.mp (by omega))
  have h4 : 1 ≤ t₃.count ',' := by
    have hc := count_last_split ',' t₃ n hnn
    omega
  obtain ⟨m, r, rfl, hnr⟩ :=
    exists_last_split ',' t₃ (List.count_pos_iff.mp (by omega))
  exact ⟨a, l, m, r, n, by simp, hna, hnl, hnr, hnn⟩

lemma substrU_contiguous (s : Str) (left right : Nat) : substrU s left right <:+: s := by
  simp only [substrU]
  split <;> split
  all_goals
    first
      | exact List.nil_infix
      | exact ((List.drop_suffix _ _).isInfix).trans (List.take_prefix _ _).isInfix

/-- C1: for a `+RCV=` remainder with at least four commas (written as its
unique decomposition around the first two and last two commas, with the
side pieces comma-free), `_parseRcvString` assigns the text before the
first comma as address, the text between the first and second commas as
length, exactly the substring between the second and second-to-last commas
as payload (internal commas preserved unsplit), the text between the
second-to-last and last commas as rssi, and the text after the last comma
as snr. -/
theorem parseRcv_fields_correct (a l m r n : Str)
    (ha : ',' ∉ a) (hl : ',' ∉ l) (hr : ',' ∉ r) (hn : ',' ∉ n)
    (hlen : (a ++ [','] ++ l ++ [','] ++ m ++ [','] ++ r ++ [','] ++ n).length < 2 ^ 32) :
    parseRcvString (a ++ [','] ++ l ++ [','] ++ m ++ [','] ++ r ++ [','] ++ n) =
      ⟨a, l, m, r, n⟩ := by
  have he : a ++ [','] ++ l ++ [','] ++ m ++ [','] ++ r ++ [','] ++ n
      = a ++ ',' :: (l ++ ',' :: (m ++ ',' :: (r ++ ',' :: n))) := by
    simp
  rw [he] at hlen ⊢
  exact parseRcv_core a l m r n ha hl hr hn hlen

/-- Witness for C1 at the spec's own example: the remainder
`A,L,{"k":1,"m":[1,2]},R,S` parses with payload exactly
`{"k":1,"m":[1,2]}`. -/
theorem parseRcv_fields_correct_witness :
    parseRcvString (("A,L,\x7b\"k\":1,\"m\":[1,2]\x7d,R,S").data) =
      ⟨("A").data, ("L").data, ("\x7b\"k\":1,\"m\":[1,2]\x7d").data,
        ("R").data, ("S").data⟩ := by
  have h := parseRcv_fields_correct (("A").data) (("L").data)
    (("\x7b\"k\":1,\"m\":[1,2]\x7d").data) (("R").data) (("S").data)
    (by decide) (by decide) (by decide) (by decide) (by decide)
  have he : ("A").data ++ [','] ++ ("L").data ++ [','] ++
      ("\x7b\"k\":1,\"m\":[1,2]\x7d").data ++ [','] ++ ("R").data ++ [','] ++
      ("S").data = ("A,L,\x7b\"k\":1,\"m\":[1,2]\x7d,R,S").data := by
    decide
  rw [← he]
  exact h

/-- C10: for any input with at least four commas, joining the five fields
produced by `_parseRcvString` with single commas, in order, reconstructs the
input exactly — the split loses no characters and duplicates none. -/
theorem parseRcv_join_reconstructs (s : Str) (h4 : 4 ≤ s.count ',')
    (hlen : s.length < 2 ^ 32) :
    (parseRcvString s).address ++ [','] ++ (parseRcvString s).length ++ [','] ++
      (parseRcvString s).jsonData ++ [','] ++ (parseRcvString s).rssi ++ [','] ++
      (parseRcvString s).snr = s := by
  obtain ⟨a, l, m, r, n, rfl, hna, hnl, hnr, hnn⟩ := exists_four_split s h4
  rw [parseRcv_core a l m r n hna hnl hnr hnn hlen]
  simp

/-- Witness for C10 at the remainder `A,L,{"k":1,"m":[1,2]},R,S`. -/
theorem parseRcv_join_reconstructs_witness :
    4 ≤ (("A,L,\x7b\"k\":1,\"m\":[1,2]\x7d,R,S").data).count ',' ∧
    (parseRcvString (("A,L,\x7b\"k\":1,\"m\":[1,2]\x7d,R,S").data)).address ++ [','] ++
      (parseRcvString (("A,L,\x7b\"k\":1,\"m\":[1,2]\x7d,R,S").data)).length ++ [','] ++
      (parseRcvString (("A,L,\x7b\"k\":1,\"m\":[1,2]\x7d,R,S").data)).jsonData ++ [','] ++
      (parseRcvString (("A,L,\x7b\"k\":1,\"m\":[1,2]\x7d,R,S").data)).rssi ++ [','] ++
      (parseRcvString (("A,L,\x7b\"k\":1,\"m\":[1,2]\x7d,R,S").data)).snr =
      ("A,L,\x7b\"k\":1,\"m\":[1,2]\x7d,R,S").data :=
  ⟨by decide,
    parseRcv_join_reconstructs (("A,L,\x7b\"k\":1,\"m\":[1,2]\x7d,R,S").data)
      (by decide) (by decide)⟩

/-- C3 (amended): on a line whose remainder has fewer than four commas the
parser does not fault — it is a total function and every field it assigns
is a contiguous substring of the input (possibly the whole input, not
necessarily the empty string), so downstream decode fails cleanly rather
than aborting the loop. -/
theorem parseRcv_degenerate_no_fault (s : Str) (_hlt : s.count ',' < 4) :
    (parseRcvString s).address <:+: s ∧ (parseRcvString s).length <:+: s ∧
    (parseRcvString s).jsonData <:+: s ∧ (parseRcvString s).rssi <:+: s ∧
    (parseRcvString s).snr <:+: s := by
  simp only [parseRcvString]
  exact ⟨substrU_contiguous _ _ _, substrU_contiguous _ _ _, substrU_contiguous _ _ _,
    substrU_contiguous _ _ _, substrU_contiguous _ _ _⟩

/-- Witness for C3 at the comma-free remainder `X`. -/
theorem parseRcv_degenerate_no_fault_witness :
    (("X").data).count ',' < 4 ∧
    ((parseRcvString (("X").data)).address <:+: ("X").data ∧
      (parseRcvString (("X").data)).length <:+: ("X").data ∧
      (parseRcvString (("X").data)).jsonData <:+: ("X").data ∧
      (parseRcvString (("X").data)).rssi <:+: ("X").data ∧
      (parseRcvString (("X").data)).snr <:+: ("X").data) :=
  ⟨by decide, parseRcv_degenerate_no_fault (("X").data) (by decide)⟩

/-- Counterexample refuting C3 as stated: on the comma-free remainder `X`
(fewer than four commas) the unanchorable fields do NOT degrade to the
empty string — the address field comes back as the whole input `X`. -/
theorem parseRcv_degenerate_counterexample :
    (("X").data).count ',' < 4 ∧
    (parseRcvString (("X").data)).address = ("X").data ∧
    (parseRcvString (("X").data)).address ≠ [] := by
  decide

/-- A scalar value of the telemetry document: the four runtime types the
report emitter dispatches on (`const char*`, `int`, `double`, `bool`).
Doubles are modelled as exact rationals. -/
inductive JVal where
  | vStr (s : Str)
  | vInt (i : Int)
  | vFloat (q : ℚ)
  | vBool (b : Bool)
deriving DecidableEq

/-- The `StaticJsonDocument` root object: an insertion-ordered key → value
mapping. -/
abbrev Doc := List (Str × JVal)

/-- `doc[key] = value`: overwrite in place when the key exists, append
otherwise (ArduinoJson member assignment). -/
def docSet (d : Doc) (k : Str) (v : JVal) : Doc :=
  if d.any (fun kv => kv.1 = k) then
    d.map (fun kv => if kv.1 = k then (k, v) else kv)
  else d ++ [(k, v)]

/-- Look a key up in the document. -/
def docGet (d : Doc) (k : Str) : Option JVal :=
  (d.find? (fun kv => kv.1 = k)).map (fun kv => kv.2)

/-- Whitespace in the sense of C `isspace`, as skipped by `atoi` and
stripped by Arduino `String::trim`. -/
def isSpaceC (c : Char) : Bool :=
  c = ' ' ∨ c = '\t' ∨ c = '\n' ∨ c = '\x0b' ∨ c = '\x0c' ∨ c = '\r'

/-- Decimal digit test for `atoi`. -/
def isDigitC (c : Char) : Bool := '0' ≤ c ∧ c ≤ '9'

/-- Accumulate the leading run of decimal digits, stopping at the first
non-digit. -/
def digitsVal (acc : Int) : Str → Int
  | [] => acc
  | c :: cs =>
      if isDigitC c then digitsVal (10 * acc + ((c.toNat - '0'.toNat : Nat) : Int)) cs
      else acc

/-- C `atoi`: skip leading whitespace, read an optional sign, then the
leading run of digits; any text with no leading digits parses to 0
(overflow, which is undefined behaviour in C, is not modelled — every
field in scope is small). -/
def atoi (s : Str) : Int :=
  match s.dropWhile isSpaceC with
  | '-' :: rest => - digitsVal 0 rest
  | '+' :: rest => digitsVal 0 rest
  | other => digitsVal 0 other

example : atoi (("-123").data) = -123 := by decide
example : atoi (("  42x7").data) = 42 := by decide
example : atoi (("oops").data) = 0 := by decide

/-- The receive-frame marker `+RCV=`. -/
def markerRCV : Str := ("+RCV=").data

/-- The text after the first `=` of a line:
`response.substring(response.indexOf('=') + 1)`. -/
def remainderOf (line : Str) : Str :=
  substrU line (toUInt32 (indexOfFrom line '=' 0 + 1)) line.length

/-- `RYLR998::handleIncoming`, given the line just read from the radio
serial channel.  `decode` abstracts ArduinoJson `deserializeJson` (the
payload grammar is outside this model): on success it yields the decoded
object, on failure the document is left cleared.  `att` is the document
attached via `setJsonDocument` (`_doc`), or `none` when unset; an attached
document always passes the `if (_doc && jsonData)` test because an Arduino
`String` converts to `true` whenever its buffer is valid.  Returns the
`ok` flag and the document state after the call. -/
def handleIncoming (decode : Str → Option Doc) (line : Str)
    (att : Option Doc) : Bool × Option Doc :=
  if markerRCV.isPrefixOf line then
    let f := parseRcvString (remainderOf line)
    match att with
    | none => (false, none)
    | some _ =>
        let d0 := match decode f.jsonData with
          | some d => d
          | none => []
        let d1 := docSet d0 (("address").data) (.vInt (atoi f.address))
        let d2 := docSet d1 (("length").data) (.vInt (atoi f.length))
        let d3 := docSet d2 (("rssi").data) (.vInt (atoi f.rssi))
        let d4 := docSet d3 (("snr").data) (.vInt (atoi f.snr))
        (true, some d4)
  else (false, att)

lemma find_map_self (d : Doc) (k : Str) (v : JVal)
    (hany : d.any (fun kv => kv.1 = k) = true) :
    (d.map (fun kv => if kv.1 = k then (k, v) else kv)).find?
      (fun kv => kv.1 = k) = some (k, v) := by
  induction d with
  | nil => simp at hany
  | cons kv d' ih =>
      rw [List.map_cons]
      by_cases hk : kv.1 = k
      · rw [if_pos hk, List.find?_cons_of_pos _ (by simp)]
      · rw [if_neg hk, List.find?_cons_of_neg _ (by simp [hk])]
        apply ih
        simp only [List.any_cons, Bool.or_eq_true, decide_eq_true_eq] at hany
        rcases hany with h | h
        · exact absurd h hk
        · exact h

lemma find_append_self (d : Doc) (k : Str) (v : JVal)
    (hany : d.any (fun kv => kv.1 = k) = false) :
    (d ++ [(k, v)]).find? (fun kv => kv.1 = k) = some (k, v) := by
  induction d with
  | nil => rw [List.nil_append, List.find?_cons_of_pos _ (by simp)]
  | cons kv d' ih =>
      simp only [List.any_cons, Bool.or_eq_false_iff, decide_eq_false_iff_not] at hany
      rw [List.cons_append, List.find?_cons_of_neg _ (by simp [hany.1])]
      exact ih hany.2

lemma docGet_docSet_self (d : Doc) (k : Str) (v : JVal) :
    docGet (docSet d k v) k = some v := by
  unfold docSet docGet
  by_cases hany : d.any (fun kv => kv.1 = k) = true
  · rw [if_pos hany, find_map_self d k v hany]
    rfl
  · rw [if_neg hany, find_append_self d k v (Bool.eq_false_iff.mpr hany)]
    rfl

lemma find_map_other (d : Doc) (k k' : Str) (v : JVal) (hne : k' ≠ k) :
    (d.map (fun kv => if kv.1 = k' then (k', v) else kv)).find? (fun kv => kv.1 = k)
      = d.find? (fun kv => kv.1 = k) := by
  induction d with
  | nil => rfl
  | cons kv d' ih =>
      rw [List.map_cons]
      by_cases hk : kv.1 = k'
      · rw [if_pos hk, List.find?_cons_of_neg _ (by simp [hne]),
          List.find?_cons_of_neg _ (by simp [hk, hne])]
        exact ih
      · rw [if_neg hk]
        by_cases hkk : kv.1 = k
        · rw [List.find?_cons_of_pos _ (by simp [hkk]),
            List.find?_cons_of_pos _ (by simp [hkk])]
        · rw [List.find?_cons_of_neg _ (by simp [hkk]),
            List.find?_cons_of_neg _ (by simp [hkk])]
          exact ih

lemma find_append_other (d : Doc) (k k' : Str) (v : JVal) (hne : k' ≠ k) :
    (d ++ [(k', v)]).find? (fun kv => kv.1 = k) = d.find? (fun kv => kv.1 = k) := by
  induction d with
  | nil => rw [List.nil_append, List.find?_cons_of_neg _ (by simp [hne])]
  | cons kv d' ih =>
      rw [List.cons_append]
      by_cases hkk : kv.1 = k
      · rw [List.find?_cons_of_pos _ (by simp [hkk]),
          List.find?_cons_of_pos _ (by simp [hkk])]
      · rw [List.find?_cons_of_neg _ (by simp [hkk]),
          List.find?_cons_of_neg _ (by simp [hkk])]
        exact ih

lemma docGet_docSet_other (d : Doc) (k k' : Str) (v : JVal) (hne : k' ≠ k) :
    docGet (docSet d k' v) k = docGet d k := by
  unfold docSet docGet
  by_cases hany : d.any (fun kv => kv.1 = k') = true
  · rw [if_pos hany, find_map_other d k k' v hne]
  · rw [if_neg hany, find_append_other d k k' v hne]

/-- C2: for every recognized `+RCV=` line handled with a document attached,
the resulting document binds the four metadata keys `address`, `length`,
`rssi`, `snr` to the integers obtained by `atoi` (parse-or-zero) from the
corresponding parsed field texts — for every payload-decode outcome
(`decode` is arbitrary, so in particular when deserialization fails). -/
theorem handleIncoming_metadata (decode : Str → Option Doc) (line : Str) (d₀ : Doc)
    (h : markerRCV.isPrefixOf line = true) :
    ∃ d : Doc,
      (handleIncoming decode line (some d₀)).2 = some d ∧
      docGet d (("address").data) =
        some (.vInt (atoi (parseRcvString (remainderOf line)).address)) ∧
      docGet d (("length").data) =
        some (.vInt (atoi (parseRcvString (remainderOf line)).length)) ∧
      docGet d (("rssi").data) =
        some (.vInt (atoi (parseRcvString (remainderOf line)).rssi)) ∧
      docGet d (("snr").data) =
        some (.vInt (atoi (parseRcvString (remainderOf line)).snr)) := by
  unfold handleIncoming
  simp only [h, if_true]
  refine ⟨_, rfl, ?_, ?_, ?_, ?_⟩
  · rw [docGet_docSet_other _ _ _ _ (by decide), docGet_docSet_other _ _ _ _ (by decide),
      docGet_docSet_other _ _ _ _ (by decide), docGet_docSet_self]
  · rw [docGet_docSet_other _ _ _ _ (by decide), docGet_docSet_other _ _ _ _ (by decide),
      docGet_docSet_self]
  · rw [docGet_docSet_other _ _ _ _ (by decide), docGet_docSet_self]
  · rw [docGet_docSet_self]

/-- Witness for C2 on a frame whose payload `oops` is not valid JSON and
whose decode fails (`decode` returns `none`): metadata is still injected. -/
theorem handleIncoming_metadata_witness :
    markerRCV.isPrefixOf (("+RCV=9,4,oops,-3,12").data) = true ∧
    ∃ d : Doc,
      (handleIncoming (fun _ => none) (("+RCV=9,4,oops,-3,12").data) (some [])).2 =
        some d ∧
      docGet d (("address").data) =
        some (.vInt (atoi (parseRcvString (remainderOf (("+RCV=9,4,oops,-3,12").data))).address)) ∧
      docGet d (("length").data) =
        some (.vInt (atoi (parseRcvString (remainderOf (("+RCV=9,4,oops,-3,12").data))).length)) ∧
      docGet d (("rssi").data) =
        some (.vInt (atoi (parseRcvString (remainderOf (("+RCV=9,4,oops,-3,12").data))).rssi)) ∧
      docGet d (("snr").data) =
        some (.vInt (atoi (parseRcvString (remainderOf (("+RCV=9,4,oops,-3,12").data))).snr)) :=
  ⟨by decide,
    handleIncoming_metadata (fun _ => none) (("+RCV=9,4,oops,-3,12").data) [] (by decide)⟩

/-- C4: `handleIncoming` reports a usable frame exactly when the line
carries the `+RCV=` marker and a document is attached for metadata
injection; the flag does not depend on how the inner payload decodes, and
a line without the marker leaves the document untouched and returns
false. -/
theorem handleIncoming_usable (decode decode' : Str → Option Doc) (line : Str)
    (att : Option Doc) :
    (handleIncoming decode line att).1 = (markerRCV.isPrefixOf line && att.isSome) ∧
    (handleIncoming decode line att).1 = (handleIncoming decode' line att).1 ∧
    (markerRCV.isPrefixOf line = false → handleIncoming decode line att = (false, att)) := by
  unfold handleIncoming
  by_cases h : markerRCV.isPrefixOf line = true
  · simp only [h, if_true, Bool.true_and]
    cases att <;> simp
  · have h' : markerRCV.isPrefixOf line = false := Bool.eq_false_iff.mpr h
    simp [h']

/-- Witness for C4 at a markerless line: nothing happens and the result is
false. -/
theorem handleIncoming_usable_witness :
    handleIncoming (fun _ => none) (("hello").data) (some []) = (false, some []) := by
  have h := handleIncoming_usable (fun _ => none) (fun _ => none) (("hello").data) (some [])
  exact h.2.2 (by decide)

/-- Decimal digit characters of a natural number (the rendering used by
Arduino `String(n)` and `sprintf("%d", n)`); fuel-structural recursion,
`fuel = n + 1` always suffices. -/
def natCharsAux : ℕ → ℕ → Str
  | 0, _ => []
  | fuel + 1, n =>
      if n < 10 then [Nat.digitChar n]
      else natCharsAux fuel (n / 10) ++ [Nat.digitChar (n % 10)]

def natToChars (n : ℕ) : Str := natCharsAux (n + 1) n

def intToChars (i : Int) : Str :=
  if i < 0 then '-' :: natToChars (-i).toNat else natToChars i.toNat

lemma natCharsAux_ne_nil (fuel n : ℕ) : natCharsAux (fuel + 1) n ≠ [] := by
  unfold natCharsAux
  split
  · simp
  · simp

lemma natToChars_ne_nil (n : ℕ) : natToChars n ≠ [] := natCharsAux_ne_nil n n

example : natToChars 0 = [Nat.digitChar 0] := by decide
example : natToChars 12340 = ("12340").data := by decide

/-- The module's generic success token. -/
def okToken : Str := ("+OK").data

/-- The command built by `RYLR998::send`:
`"AT+SEND=" + String(address) + "," + String(data.length()) + "," + data`. -/
def sendCmd (address : ℕ) (data : Str) : Str :=
  ("AT+SEND=").data ++ natToChars address ++ [','] ++
    natToChars data.length ++ [','] ++ data

/-- `RYLR998::send`: issue the command through the transport
(`_sendCommand`, abstracted as a function from command to trimmed response
line) and report success exactly when the response equals `+OK`. -/
def send (transport : Str → Str) (address : ℕ) (data : Str) : Bool :=
  transport (sendCmd address data) == okToken

/-- C6: the outbound send writes `AT+SEND=<address>,<n>,<payload>` where
`<n>` is the payload byte length (so address 7, payload `hi` gives
`AT+SEND=7,2,hi`), and it returns true iff the transport response equals
the literal `+OK` by full equality — any proper extension (or any other
string) of the token is rejected, never accepted by prefix. -/
theorem send_spec :
    sendCmd 7 (("hi").data) = ("AT+SEND=7,2,hi").data ∧
    (∀ transport address data,
      (send transport address data = true ↔
        transport (sendCmd address data) = okToken)) ∧
    (∀ address data resp, okToken <+: resp → resp ≠ okToken →
      send (fun _ => resp) address data = false) := by
  refine ⟨by decide, ?_, ?_⟩
  · intro transport address data
    simp [send]
  · intro address data resp _hpre hne
    simp [send]
    exact hne

/-- Witness for C6: the truncated-capture-style response `+OKX` has the
success token as a prefix but is rejected. -/
theorem send_spec_witness :
    okToken <+: (("+OKX").data) ∧ (("+OKX").data) ≠ okToken ∧
    send (fun _ => (("+OKX").data)) 7 (("hi").data) = false :=
  ⟨by decide, by decide,
    send_spec.2.2 7 (("hi").data) (("+OKX").data) (by decide) (by decide)⟩

/-- Arduino `String::trim`: strip `isspace` characters from BOTH ends. -/
def trimC (s : Str) : Str :=
  ((s.dropWhile isSpaceC).reverse.dropWhile isSpaceC).reverse

/-- Modelled from the spec's words ("trimmed of trailing whitespace"):
a trailing-only trim, for comparison against the code's `String::trim`. -/
def trimTrailing (s : Str) : Str := (s.reverse.dropWhile isSpaceC).reverse

/-- `RYLR998::_sendCommand`'s polling loop, with real time abstracted into
one list entry per loop iteration inside the timeout window: `none` means
`_serial.available()` was false at that iteration, `some line` means a
full line was read (`readStringUntil`); the list ends when
`millis() - start < timeout` first fails.  The response starts as `""`
and is the trimmed line when one arrives before the budget runs out. -/
def sendCommandLoop : List (Option Str) → Str
  | [] => []
  | none :: rest => sendCommandLoop rest
  | some line :: _ => trimC line

/-- `RYLR998::_sendCommand`: `_serial.println(command)` writes the command
plus the CRLF line terminator, then the bounded poll produces the
response.  Returns (bytes written, response). -/
def sendCommandModel (command : Str) (polls : List (Option Str)) : Str × Str :=
  (command ++ ['\r', '\n'], sendCommandLoop polls)

lemma sendCommandLoop_skip :
    ∀ (pre rest : List (Option Str)) (line : Str), (∀ x ∈ pre, x = none) →
      sendCommandLoop (pre ++ some line :: rest) = trimC line
  | [], _, _, _ => rfl
  | none :: pre', rest, line, h => by
      rw [List.cons_append]
      exact sendCommandLoop_skip pre' rest line (fun y hy => h y (List.mem_cons_of_mem _ hy))
  | some l' :: pre', rest, line, h => by
      exact absurd (h (some l') (List.mem_cons_self _ _)) (by simp)

/-- C7 (amended): `_sendCommand` writes the command plus a line terminator,
then polls until a terminated line arrives or the timeout budget is
exhausted; with no line inside the budget it returns the empty string
(empty means failure by policy), and a line that does arrive is returned
trimmed of LEADING AND trailing whitespace (Arduino `String::trim`), not
of trailing whitespace only. -/
theorem sendCommand_spec (command : Str) (k : ℕ) (pre rest : List (Option Str))
    (line : Str) (hpre : ∀ x ∈ pre, x = none) :
    (sendCommandModel command (pre ++ some line :: rest)).1 =
      command ++ ['\r', '\n'] ∧
    (sendCommandModel command (List.replicate k none)).2 = [] ∧
    (sendCommandModel command (pre ++ some line :: rest)).2 = trimC line := by
  refine ⟨rfl, ?_, sendCommandLoop_skip pre rest line hpre⟩
  show sendCommandLoop (List.replicate k none) = []
  induction k with
  | zero => rfl
  | succ k ih => simpa [List.replicate_succ, sendCommandLoop] using ih

/-- Witness for C7 at a one-poll delay and the line `" +OK "`. -/
theorem sendCommand_spec_witness :
    (∀ x ∈ ([none] : List (Option Str)), x = none) ∧
    ((sendCommandModel (("AT").data) ([none] ++ some ((" +OK ").data) :: [])).1 =
        ("AT").data ++ ['\r', '\n'] ∧
      (sendCommandModel (("AT").data) (List.replicate 3 none)).2 = [] ∧
      (sendCommandModel (("AT").data) ([none] ++ some ((" +OK ").data) :: [])).2 =
        trimC ((" +OK ").data)) :=
  ⟨by decide,
    sendCommand_spec (("AT").data) 3 [none] [] ((" +OK ").data) (by decide)⟩

/-- Counterexample refuting C7 as stated: for the arriving line `" +OK"`
the returned response is `"+OK"` — the code's `String::trim` also removes
the LEADING space, so the result differs from the trailing-only trim the
claim describes. -/
theorem sendCommand_trim_counterexample :
    (sendCommandModel (("AT").data) [some ((" +OK").data)]).2 = ("+OK").data ∧
    (sendCommandModel (("AT").data) [some ((" +OK").data)]).2 ≠
      trimTrailing ((" +OK").data) := by
  decide

/-- Left-pad with zeros to `prec` digits (fraction rendering). -/
def padZeros (ds : Str) (prec : ℕ) : Str :=
  List.replicate (prec - ds.length) '0' ++ ds

/-- ESP8266 `dtostrf(number, width, prec, s)` over exact rationals: take
the magnitude, add the rounding term 0.5·10^−prec, emit the integer
digits, the decimal point and the next `prec` digits of the (rounded)
value, with a leading `-` for negative input, right-adjusted with leading
spaces up to the minimum field width
(`fillme = width - (prec + 1) - digitcount`). -/
def dtostrf (q : ℚ) (width : Int) (prec : ℕ) : Str :=
  let scaled : ℕ := (⌊(|q| + 1 / (2 * (10 : ℚ) ^ prec)) * (10 : ℚ) ^ prec⌋).toNat
  let digits := natToChars (scaled / 10 ^ prec)
  let body := (if q < 0 then ['-'] else []) ++ digits ++
    (if 0 < prec then '.' :: padZeros (natToChars (scaled % 10 ^ prec)) prec else [])
  let fillme : Int := width - (if 0 < prec then (prec : Int) + 1 else 0) - digits.length
  List.replicate fillme.toNat ' ' ++ body

/-- The width computation of `report`'s double branch:
`int width = (number < 1 && number > -1) ? 2 : log10(abs(number)) + 4;`
(`Int.log 10` is the mathematical ⌊log10⌋ on arguments ≥ 1, which is what
the truncating C cast of `log10(abs(number)) + 4` yields). -/
def widthFor (q : ℚ) : Int :=
  if q < 1 ∧ q > -1 then 2 else Int.log 10 |q| + 4

/-- The double branch of `report`: `dtostrf(number, width, 2, reading)`. -/
def formatDouble (q : ℚ) : Str := dtostrf q (widthFor q) 2

lemma dtostrf_eq_of_floor (q : ℚ) (width : Int) (prec sc : ℕ)
    (hfl : ⌊(|q| + 1 / (2 * (10 : ℚ) ^ prec)) * (10 : ℚ) ^ prec⌋ = (sc : ℤ)) :
    dtostrf q width prec =
      List.replicate ((width - (if 0 < prec then (prec : Int) + 1 else 0) -
          (natToChars (sc / 10 ^ prec)).length).toNat) ' ' ++
        ((if q < 0 then ['-'] else []) ++ natToChars (sc / 10 ^ prec) ++
          (if 0 < prec then '.' :: padZeros (natToChars (sc % 10 ^ prec)) prec
            else [])) := by
  unfold dtostrf
  rw [hfl]
  rfl

/-- C8: the report emitter formats a double field with 2 fraction digits
and width 2 when |v| < 1 (the code's `v < 1 && v > -1` test is exactly
|v| < 1), otherwise width ⌊log10 |v|⌋ + 4; in particular 0.5 formats as
`0.50` and −123.4 as `-123.40`.  Doubles are modelled as exact rationals;
both example values round to the same strings in binary double. -/
theorem formatDouble_spec :
    formatDouble (1 / 2) = ("0.50").data ∧
    formatDouble (-1234 / 10) = ("-123.40").data ∧
    ∀ q : ℚ, widthFor q = if |q| < 1 then 2 else Int.log 10 |q| + 4 := by
  refine ⟨?_, ?_, ?_⟩
  · have ha : |(1 / 2 : ℚ)| = 1 / 2 := by norm_num
    have hfl1 : ⌊(|(1 / 2 : ℚ)| + 1 / (2 * (10 : ℚ) ^ 2)) * (10 : ℚ) ^ 2⌋ = ((50 : ℕ) : ℤ) := by
      rw [ha]
      norm_num
    have hw1 : widthFor (1 / 2 : ℚ) = 2 := by
      unfold widthFor
      rw [if_pos (⟨by norm_num, by norm_num⟩ : (1 / 2 : ℚ) < 1 ∧ (1 / 2 : ℚ) > -1)]
    unfold formatDouble
    rw [hw1, dtostrf_eq_of_floor (1 / 2) 2 2 50 hfl1,
      if_neg (show ¬ (1 / 2 : ℚ) < 0 by norm_num)]
    decide
  · have ha : |(-1234 / 10 : ℚ)| = 1234 / 10 := by norm_num
    have hfl2 : ⌊(|(-1234 / 10 : ℚ)| + 1 / (2 * (10 : ℚ) ^ 2)) * (10 : ℚ) ^ 2⌋ =
        ((12340 : ℕ) : ℤ) := by
      rw [ha]
      norm_num
    have hw2 : widthFor (-1234 / 10 : ℚ) = 6 := by
      unfold widthFor
      rw [if_neg (show ¬ ((-1234 / 10 : ℚ) < 1 ∧ (-1234 / 10 : ℚ) > -1) from
        fun hc => absurd hc.2 (by norm_num))]
      rw [ha, Int.log_of_one_le_right _ (by norm_num : (1 : ℚ) ≤ 1234 / 10)]
      have hfl : ⌊(1234 / 10 : ℚ)⌋₊ = 123 := by
        rw [Nat.floor_eq_iff (by norm_num)]
        constructor <;> norm_num
      rw [hfl, show Nat.log 10 123 = 2 from
        Nat.log_eq_of_pow_le_of_lt_pow (by norm_num) (by norm_num)]
      rfl
    unfold formatDouble
    rw [hw2, dtostrf_eq_of_floor (-1234 / 10) 6 2 12340 hfl2,
      if_pos (show (-1234 / 10 : ℚ) < 0 by norm_num)]
    decide
  · intro q
    unfold widthFor
    by_cases h : |q| < 1
    · have h' := abs_lt.mp h
      rw [if_pos h, if_pos ⟨h'.2, h'.1⟩]
    · rw [if_neg h, if_neg (fun hc => h (abs_lt.mpr ⟨hc.2, hc.1⟩))]

/-- The `reading` text produced by `report`'s runtime-type dispatch
(`const char*` as-is, `int` in decimal, `double` via the width/dtostrf
computation, `bool` as `true`/`false`; the tagged union makes the `is<>`
chain unambiguous). -/
def formatValue : JVal → Str
  | .vStr s => s
  | .vInt i => intToChars i
  | .vFloat q => formatDouble q
  | .vBool b => if b then ("true").data else ("false").data

/-- ArduinoJson `String(doc[key])`: a string value as-is, other scalars
serialized (the float branch reuses the decimal rendering — it is never
reached by the pipeline, whose address member is an integer), a
missing/null member rendering as `null`. -/
def variantAsString : Option JVal → Str
  | none => ("null").data
  | some (.vStr s) => s
  | some (.vInt i) => intToChars i
  | some (.vBool b) => if b then ("true").data else ("false").data
  | some (.vFloat q) => formatDouble q

/-- ArduinoJson `(int)doc[key]`: integers as-is, booleans 0/1, floats
truncated toward zero, numeric strings parsed, missing/null 0. -/
def variantAsInt : Option JVal → Int
  | none => 0
  | some (.vStr s) => atoi s
  | some (.vInt i) => i
  | some (.vBool b) => if b then 1 else 0
  | some (.vFloat q) => q.num / (q.den : Int)

/-- The acknowledgement body `"{\"ack\":" + tf + "}"`. -/
def ackBody (ok : Bool) : Str :=
  ("\x7b\"ack\":").data ++ (if ok then ("true").data else ("false").data) ++ ['\x7d']

/-- `ack(ok)` of the sketch (named `ackReply` here because `ack` collides
with an existing library name): when `String(doc["address"])` is
nonempty, send the body to `(int)doc["address"]` over the radio
(`lora.send`, abstracted as `sendTo`); otherwise `good` stays false. -/
def ackReply (sendTo : Int → Str → Bool) (d : Doc) (ok : Bool) : Bool :=
  if (variantAsString (docGet d (("address").data))).length > 0 then
    sendTo (variantAsInt (docGet d (("address").data))) (ackBody ok)
  else false

/-- One iteration of `report`'s field loop: build `topic = topicRoot+key`
and the `reading`, then — with a broker configured — publish with
retain = true, recording the call and counting `allGood++` only on
success; with no broker count the field with no network call.  `allGood`
is a `uint8_t`, so its increments live mod 256.  The accumulator carries
(`allGood`, publish-call trace). -/
def reportStep (topicRoot : Str) (brokerConfigured : Bool)
    (publish : Str → Str → Bool → Bool)
    (acc : ℕ × List (Str × Str × Bool)) (kv : Str × JVal) :
    ℕ × List (Str × Str × Bool) :=
  let topic := topicRoot ++ kv.1
  let reading := formatValue kv.2
  if brokerConfigured then
    if publish topic reading true then
      ((acc.1 + 1) % 256, acc.2 ++ [(topic, reading, true)])
    else (acc.1, acc.2 ++ [(topic, reading, true)])
  else ((acc.1 + 1) % 256, acc.2)

/-- The outcome of one `report()` call: the returned flag
(`ok = allGood >= root.size()`), the publish calls made, and the ack
transport verdict (printed, not returned). -/
structure ReportResult where
  ok : Bool
  pubs : List (Str × Str × Bool)
  ackStatus : Bool

/-- `report()`: fold the field loop over the document in insertion order,
compute `ok`, send the acknowledgement with it, and return `ok` alone. -/
def report (topicRoot : Str) (brokerConfigured : Bool)
    (publish : Str → Str → Bool → Bool) (sendTo : Int → Str → Bool)
    (d : Doc) : ReportResult :=
  let res := d.foldl (reportStep topicRoot brokerConfigured publish) (0, [])
  let ok := decide (res.1 ≥ d.length)
  { ok := ok, pubs := res.2, ackStatus := ackReply sendTo d ok }

/-- The number of fields whose publish succeeds (publishedCount when a
broker is configured). -/
def succCount (topicRoot : Str) (publish : Str → Str → Bool → Bool) (d : Doc) : ℕ :=
  (d.filter (fun kv => publish (topicRoot ++ kv.1) (formatValue kv.2) true)).length

lemma report_fold_broker (topicRoot : Str) (publish : Str → Str → Bool → Bool)
    (d : Doc) :
    ∀ (acc : ℕ) (calls : List (Str × Str × Bool)), acc < 256 →
      d.foldl (reportStep topicRoot true publish) (acc, calls) =
        ((acc + succCount topicRoot publish d) % 256,
          calls ++ d.map (fun kv => (topicRoot ++ kv.1, formatValue kv.2, true))) := by
  induction d with
  | nil =>
      intro acc calls hacc
      simp only [List.foldl_nil, List.map_nil, List.append_nil, succCount,
        List.filter_nil, List.length_nil, Prod.mk.injEq]
      exact ⟨by omega, trivial⟩
  | cons kv d' ih =>
      intro acc calls hacc
      rw [List.foldl_cons]
      by_cases hp : publish (topicRoot ++ kv.1) (formatValue kv.2) true = true
      · have hstep : reportStep topicRoot true publish (acc, calls) kv =
            ((acc + 1) % 256, calls ++ [(topicRoot ++ kv.1, formatValue kv.2, true)]) := by
          simp [reportStep, hp]
        rw [hstep, ih ((acc + 1) % 256)
          (calls ++ [(topicRoot ++ kv.1, formatValue kv.2, true)]) (by omega)]
        have hc : succCount topicRoot publish (kv :: d') =
            succCount topicRoot publish d' + 1 := by
          unfold succCount
          rw [List.filter_cons, if_pos (by simpa using hp)]
          simp
        rw [hc]
        simp only [List.map_cons, Prod.mk.injEq]
        exact ⟨by omega, by simp⟩
      · have hstep : reportStep topicRoot true publish (acc, calls) kv =
            (acc, calls ++ [(topicRoot ++ kv.1, formatValue kv.2, true)]) := by
          simp [reportStep, hp]
        rw [hstep, ih acc (calls ++ [(topicRoot ++ kv.1, formatValue kv.2, true)]) hacc]
        have hc : succCount topicRoot publish (kv :: d') =
            succCount topicRoot publish d' := by
          unfold succCount
          rw [List.filter_cons, if_neg (by simpa using hp)]
        rw [hc]
        simp only [List.map_cons, Prod.mk.injEq]
        exact ⟨trivial, by simp⟩

lemma report_fold_nobroker (topicRoot : Str) (publish : Str → Str → Bool → Bool)
    (d : Doc) :
    ∀ (acc : ℕ) (calls : List (Str × Str × Bool)), acc < 256 →
      d.foldl (reportStep topicRoot false publish) (acc, calls) =
        ((acc + d.length) % 256, calls) := by
  induction d with
  | nil =>
      intro acc calls hacc
      simp only [List.foldl_nil, List.length_nil, Prod.mk.injEq]
      exact ⟨by omega, trivial⟩
  | cons kv d' ih =>
      intro acc calls hacc
      rw [List.foldl_cons]
      have hstep : reportStep topicRoot false publish (acc, calls) kv =
          ((acc + 1) % 256, calls) := by
        simp [reportStep]
      rw [hstep, ih ((acc + 1) % 256) calls (by omega)]
      simp only [List.length_cons, Prod.mk.injEq]
      exact ⟨by omega, trivial⟩

/-- C5: with a broker configured, the report cycle publishes every field to
`<topicRoot><key>` with retain = true and returns true iff the number of
successful publishes (publishedCount) is at least the field count; with no
broker configured no publish call is made, every field counts as an
automatic success, and the returned flag is always true.  The field count
is below 256: the `uint8_t` tally cannot wrap, as a 250-byte
`StaticJsonDocument` holds far fewer than 256 members. -/
theorem report_cycle_success (topicRoot : Str) (publish : Str → Str → Bool → Bool)
    (sendTo : Int → Str → Bool) (d : Doc) (hcount : d.length < 256) :
    ((report topicRoot true publish sendTo d).ok = true ↔
      succCount topicRoot publish d ≥ d.length) ∧
    (report topicRoot true publish sendTo d).pubs =
      d.map (fun kv => (topicRoot ++ kv.1, formatValue kv.2, true)) ∧
    (report topicRoot false publish sendTo d).pubs = [] ∧
    (report topicRoot false publish sendTo d).ok = true := by
  have hle : succCount topicRoot publish d ≤ d.length := by
    unfold succCount
    exact List.length_filter_le _ _
  have hb := report_fold_broker topicRoot publish d 0 [] (by omega)
  have hnb := report_fold_nobroker topicRoot publish d 0 [] (by omega)
  simp only [Nat.zero_add] at hb hnb
  refine ⟨?_, ?_, ?_, ?_⟩
  · unfold report
    rw [hb]
    simp only [decide_eq_true_eq]
    have hmod : succCount topicRoot publish d % 256 = succCount topicRoot publish d := by
      omega
    rw [hmod]
  · unfold report
    rw [hb]
    simp
  · unfold report
    rw [hnb]
  · unfold report
    rw [hnb]
    simp only [decide_eq_true_eq]
    omega

/-- Witness for C5 on a one-field document with an always-failing publish
collaborator. -/
theorem report_cycle_success_witness :
    ([((("t").data), JVal.vInt 1)] : Doc).length < 256 ∧
    (((report (("root/").data) true (fun _ _ _ => false) (fun _ _ => true)
          [((("t").data), JVal.vInt 1)]).ok = true ↔
        succCount (("root/").data) (fun _ _ _ => false)
          [((("t").data), JVal.vInt 1)] ≥
          ([((("t").data), JVal.vInt 1)] : Doc).length) ∧
      (report (("root/").data) true (fun _ _ _ => false) (fun _ _ => true)
          [((("t").data), JVal.vInt 1)]).pubs =
        ([((("t").data), JVal.vInt 1)] : Doc).map
          (fun kv => ((("root/").data) ++ kv.1, formatValue kv.2, true)) ∧
      (report (("root/").data) false (fun _ _ _ => false) (fun _ _ => true)
          [((("t").data), JVal.vInt 1)]).pubs = [] ∧
      (report (("root/").data) false (fun _ _ _ => false) (fun _ _ => true)
          [((("t").data), JVal.vInt 1)]).ok = true) :=
  ⟨by decide,
    report_cycle_success (("root/").data) (fun _ _ _ => false) (fun _ _ => true)
      [((("t").data), JVal.vInt 1)] (by decide)⟩

/-- C9: the acknowledgement body is exactly `{"ack":true}` resp.
`{"ack":false}`; for any document whose already-decoded `address` member
is the integer `a` — in particular a metadata-only document left by a
failed payload decode — the ack is sent to `a` through the command
transport and the transport's verdict is returned; and the report
operation's return value is the publish outcome alone: it never changes
when the ack transport's outcome changes. -/
theorem ack_spec (d : Doc) (a : Int)
    (haddr : docGet d (("address").data) = some (.vInt a)) :
    ackBody true = ("\x7b\"ack\":true\x7d").data ∧
    ackBody false = ("\x7b\"ack\":false\x7d").data ∧
    (∀ sendTo ok, ackReply sendTo d ok = sendTo a (ackBody ok)) ∧
    (∀ topicRoot brokerConfigured publish sendTo sendTo',
      (report topicRoot brokerConfigured publish sendTo d).ok =
        (report topicRoot brokerConfigured publish sendTo' d).ok) := by
  refine ⟨by decide, by decide, ?_, ?_⟩
  · intro sendTo ok
    unfold ackReply
    rw [haddr]
    have hlen : (variantAsString (some (JVal.vInt a))).length > 0 := by
      simp only [variantAsString, intToChars]
      by_cases hneg : a < 0
      · rw [if_pos hneg]
        simp
      · rw [if_neg hneg]
        exact List.length_pos.mpr (natToChars_ne_nil _)
    rw [if_pos hlen]
    rfl
  · intro topicRoot brokerConfigured publish sendTo sendTo'
    rfl

/-- Witness for C9 on the metadata-only document injected for a frame
whose payload failed to decode. -/
theorem ack_spec_witness :
    docGet ([((("address").data), JVal.vInt 9), ((("length").data), JVal.vInt 4),
        ((("rssi").data), JVal.vInt (-3)), ((("snr").data), JVal.vInt 12)] : Doc)
      (("address").data) = some (JVal.vInt 9) ∧
    (ackBody true = ("\x7b\"ack\":true\x7d").data ∧
      ackBody false = ("\x7b\"ack\":false\x7d").data ∧
      (∀ sendTo ok, ackReply sendTo
          [((("address").data), JVal.vInt 9), ((("length").data), JVal.vInt 4),
            ((("rssi").data), JVal.vInt (-3)), ((("snr").data), JVal.vInt 12)] ok =
        sendTo 9 (ackBody ok)) ∧
      (∀ topicRoot brokerConfigured publish sendTo sendTo',
        (report topicRoot brokerConfigured publish sendTo
            [((("address").data), JVal.vInt 9), ((("length").data), JVal.vInt 4),
              ((("rssi").data), JVal.vInt (-3)), ((("snr").data), JVal.vInt 12)]).ok =
          (report topicRoot brokerConfigured publish sendTo'
            [((("address").data), JVal.vInt 9), ((("length").data), JVal.vInt 4),
              ((("rssi").data), JVal.vInt (-3)), ((("snr").data), JVal.vInt 12)]).ok)) :=
  ⟨by decide,
    ack_spec
      [((("address").data), JVal.vInt 9), ((("length").data), JVal.vInt 4),
        ((("rssi").data), JVal.vInt (-3)), ((("snr").data), JVal.vInt 12)] 9 (by decide)⟩
